import Mathlib

/-!
Verification of the deprecation-checker core (Go) against its natural-language
specification.  The Go sources are shallowly embedded: pure helpers become Lean
functions over `List Char` / `String`; Go panics and returned errors are made
explicit with `Option` (and noted where the two are conflated); Go maps become
association lists whose most recent insertion shadows earlier ones, which gives
the same lookup semantics as a Go map.  External library calls (the kin-openapi
structural validator, the loader) are modelled as oracles carried in the model
state, never as repo code.
-/

namespace DepCheck

/-! ## Go string primitives

Go's `strings` package functions, re-implemented on `List Char` so that
concrete evaluations reduce in the kernel.  Go's `strings.ToLower` and Lean's
`Char.toLower` agree on the ASCII strings this program manipulates.
-/

/-- Go `strings.ToLower` (ASCII fragment). -/
def goToLower (s : String) : String := String.mk (s.data.map Char.toLower)

/-- Auxiliary for `strings.Index`: index of the first occurrence of `sub`
in `s`, or `none` when `sub` never occurs. -/
def goIndexAux (sub : List Char) : List Char → Option Nat
  | [] => if sub.isEmpty then some 0 else none
  | c :: rest =>
    if sub.isPrefixOf (c :: rest) then some 0
    else (goIndexAux sub rest).map (· + 1)

/-- Go `strings.Index(s, sub)`: byte index of the first occurrence, `-1` when
absent (on the ASCII strings handled here, byte and rune indices agree). -/
def goIndex (s sub : String) : Int :=
  match goIndexAux sub.data s.data with
  | some n => (n : Int)
  | none => -1

/-- Go `strings.Contains` / `strings.Index(s, sub) >= 0`. -/
def goContains (s sub : String) : Bool := goIndex s sub ≥ 0

/-- Go `strings.Split(s, sep)` for a single-character separator (the program
only splits on `"."` and `"/"`).  `Split("", sep) = [""]` like in Go. -/
def goSplitCharAux (sep : Char) : List Char → List Char → List String
  | acc, [] => [String.mk acc.reverse]
  | acc, c :: rest =>
    if c = sep then String.mk acc.reverse :: goSplitCharAux sep [] rest
    else goSplitCharAux sep (c :: acc) rest

/-- Go `strings.Split(s, sep)`, `sep` a one-character string. -/
def goSplitChar (s : String) (sep : Char) : List String :=
  goSplitCharAux sep [] s.data

/-- Decimal value of a digit list (most significant first). -/
def digitsToNatAux : Nat → List Char → Nat
  | acc, [] => acc
  | acc, c :: rest => digitsToNatAux (acc * 10 + (c.toNat - 48)) rest

/-- Go `strconv.Atoi` restricted to the digit-only strings produced by the
version regex: errors (`none`) on the empty string, on non-digit characters
and on values outside the 64-bit `int` range. -/
def goAtoi (s : String) : Option Nat :=
  if s.data ≠ [] ∧ s.data.all Char.isDigit then
    let n := digitsToNatAux 0 s.data
    if n < 2 ^ 63 then some n else none
  else none

/-! ## Version algebra (src/pkg/SchemaParser.go) -/

/-- `alphaVersion` constant (SchemaParser.go). -/
def alphaVersion : Nat := 1
/-- `betaVersion` constant (SchemaParser.go). -/
def betaVersion : Nat := 2
/-- `gaVersion` constant (SchemaParser.go). -/
def gaVersion : Nat := 3

/-- `getVersionType` (SchemaParser.go:403).  Note the Go code tests
`strings.Index(apiVersion, "alpha") > 0` — strictly positive, not `>= 0`. -/
def getVersionType (apiVersion : String) : Nat :=
  if goIndex apiVersion "alpha" > 0 then alphaVersion
  else if goIndex apiVersion "beta" > 0 then betaVersion
  else gaVersion

/-- `isExtension` (SchemaParser.go:331). -/
def isExtension (second : String) : Bool := goIndex second "extensions" ≥ 0

/-- `getApiVersion` (SchemaParser.go:325): version token of a component key —

  components := strings.Split(strings.ToLower(first), ".")[3:]
  return components[len(components)-2]

`none` models the Go panic when the key has fewer than five dotted segments
(slice other out of range in `[3:]` or in `[len-2]`). -/
def getApiVersion (first : String) : Option String :=
  let parts := goSplitChar (goToLower first) '.'
  if parts.length < 3 then none
  else
    let components := parts.drop 3
    if components.length ≥ 2 then some (components.getD (components.length - 2) "")
    else none

/-- First match of the regex `v(\d*)([^0-9]*)(\d*)` in `s`:
(major digits, non-digit run, minor digits), or `none` when `s` has no `v`.
Mirrors `re.FindAllStringSubmatch(s, -1)[0]` in `isSmallerVersion`. -/
def vMatch (s : String) : Option (String × String × String) :=
  match s.data.dropWhile (· ≠ 'v') with
  | [] => none
  | _ :: rest =>
    let major := rest.takeWhile Char.isDigit
    let rest2 := rest.drop major.length
    let mid := rest2.takeWhile (fun c => ¬ c.isDigit)
    let rest3 := rest2.drop mid.length
    let minor := rest3.takeWhile Char.isDigit
    some (String.mk major, String.mk mid, String.mk minor)

/-- `getMajorVersion` (SchemaParser.go:390): `Atoi` of the first capture. -/
def getMajorVersion (m : String × String × String) : Option Nat := goAtoi m.1

/-- `math.MaxInt32`, the stand-in for a missing minor version. -/
def maxInt32 : Nat := 2147483647

/-- `getMinorVersion` (SchemaParser.go:395): `Atoi` of the third capture,
`math.MaxInt32` when the capture is empty. -/
def getMinorVersion (m : String × String × String) : Option Nat :=
  if m.2.2.isEmpty then some maxInt32 else goAtoi m.2.2

/-- `isSmallerVersion` (SchemaParser.go:335).  `none` covers both failure
modes of the Go function: the panic when the regex finds no match (indexing
`[0]` of an empty match list) and the returned `Atoi` error.  Note the final
comparison: on equal majors and version types the code returns `true`
whenever `lhsMinor <= rhsMinor` — equal tuples come out "smaller" — and the
following `lhsMajorVersion > rhsMajorVersion` test is dead code. -/
def isSmallerVersion (lhs rhs : String) : Option Bool :=
  match vMatch lhs, vMatch rhs with
  | some lm, some rm =>
    match getMajorVersion lm, getMajorVersion rm with
    | some lMaj, some rMaj =>
      if lMaj < rMaj then some true
      else if lMaj > rMaj then some false
      else
        let lType := getVersionType lhs
        let rType := getVersionType rhs
        if lType < rType then some true
        else if lType > rType then some false
        else
          match getMinorVersion lm, getMinorVersion rm with
          | some lMin, some rMin => if lMin ≤ rMin then some true else some false
          | _, _ => none
    | _, _ => none
  | _, _ => none

/-- `compareVersion` (SchemaParser.go:299): returns the preferred of two
component keys; `none` when `isSmallerVersion` fails (Go returns an error
or panics inside `getApiVersion`). -/
def compareVersion (lhs rhs : String) : Option String :=
  if lhs = rhs then some lhs
  else if ¬ isExtension lhs ∧ isExtension rhs then some lhs
  else if isExtension lhs ∧ ¬ isExtension rhs then some rhs
  else
    match getApiVersion lhs, getApiVersion rhs with
    | some firstApiVersion, some secondApiVersion =>
      match isSmallerVersion firstApiVersion secondApiVersion with
      | some true => some rhs
      | some false => some lhs
      | none => none
    | _, _ => none

/-! ## Facts about `goIndex` -/

theorem goIndexAux_eq_zero_iff (sub l : List Char) :
    goIndexAux sub l = some 0 ↔ sub.isPrefixOf l = true := by
  cases l with
  | nil =>
    cases sub with
    | nil => decide
    | cons c cs => simp [goIndexAux, List.isPrefixOf]
  | cons c rest =>
    simp only [goIndexAux]
    by_cases h : sub.isPrefixOf (c :: rest) = true
    · simp [h]
    · rw [if_neg h]
      constructor
      · intro hm
        rcases Option.map_eq_some'.mp hm with ⟨n, _, hn⟩
        omega
      · intro hp
        exact absurd hp h

theorem goIndexAux_isSome_iff_infix (sub l : List Char) :
    (goIndexAux sub l).isSome = true ↔ sub <:+: l := by
  induction l with
  | nil =>
    cases sub with
    | nil => decide
    | cons c cs => simp [goIndexAux, List.isEmpty]
  | cons c rest ih =>
    simp only [goIndexAux]
    by_cases h : sub.isPrefixOf (c :: rest) = true
    · simp only [if_pos h, Option.isSome_some, true_iff]
      exact (List.IsPrefix.isInfix (List.isPrefixOf_iff_prefix.mp h))
    · rw [if_neg h, Option.isSome_map', ih, List.infix_cons_iff]
      constructor
      · exact Or.inr
      · rintro (hp | hi)
        · exact absurd (List.isPrefixOf_iff_prefix.mpr hp) h
        · exact hi

theorem goContains_iff_infix (s sub : String) :
    goContains s sub = true ↔ sub.data <:+: s.data := by
  rw [← goIndexAux_isSome_iff_infix sub.data s.data]
  unfold goContains goIndex
  cases h : goIndexAux sub.data s.data with
  | none => simp
  | some n => simp

theorem goIndex_pos_iff (s sub : String) :
    (goIndex s sub > 0) ↔ (sub.data <:+: s.data ∧ ¬ sub.data <+: s.data) := by
  rw [← goContains_iff_infix]
  unfold goContains goIndex
  cases h : goIndexAux sub.data s.data with
  | none => simp
  | some n =>
    simp only [decide_eq_true_eq]
    constructor
    · intro hn
      refine ⟨by omega, fun hp => ?_⟩
      have h0 : goIndexAux sub.data s.data = some 0 :=
        (goIndexAux_eq_zero_iff sub.data s.data).mpr (List.isPrefixOf_iff_prefix.mpr hp)
      rw [h] at h0
      simp at h0
      omega
    · rintro ⟨-, hp⟩
      rcases Nat.eq_zero_or_pos n with h0 | h0
      · subst h0
        exact absurd (List.isPrefixOf_iff_prefix.mp ((goIndexAux_eq_zero_iff sub.data s.data).mp h)) hp
      · omega

/-! ## Claim C4: the extensions rule of `compareVersion` -/

/-- C4: for two component keys of which exactly one contains the literal
substring `extensions`, `compareVersion` returns the other key, before any
version token is parsed.  Stated for both argument orders. -/
theorem compareVersion_extensions_lose (a b : String)
    (ha : isExtension a = true) (hb : isExtension b = false) :
    compareVersion a b = some b ∧ compareVersion b a = some b := by
  have hne : a ≠ b := fun h => by rw [h, hb] at ha; exact absurd ha (by simp)
  constructor
  · unfold compareVersion
    rw [if_neg hne]
    rw [if_neg (by simp [ha])]
    rw [if_pos (by simp [ha, hb])]
  · unfold compareVersion
    rw [if_neg (Ne.symm hne)]
    rw [if_pos (by simp [ha, hb])]

/-- Witness for C4, at the pair named by the claim:
`compareVersion("io.k8s.api.extensions.v1beta1.Deployment",
"io.k8s.api.apps.v1.Deployment")` is the apps/v1 key. -/
theorem compareVersion_extensions_lose_witness :
    compareVersion "io.k8s.api.extensions.v1beta1.Deployment"
        "io.k8s.api.apps.v1.Deployment" = some "io.k8s.api.apps.v1.Deployment" :=
  (compareVersion_extensions_lose "io.k8s.api.extensions.v1beta1.Deployment"
    "io.k8s.api.apps.v1.Deployment" (by decide) (by decide)).1

/-! ## Claim C5: `compareVersion` on equal version tuples -/

/-- C5 counterexample: two distinct non-extension keys with identical version
tokens (hence equal `(major, versionType, minor)` tuples).  The claim says the
first argument is returned; the code returns the SECOND, because
`isSmallerVersion` answers `true` when `lhsMinor <= rhsMinor` (equality
included). -/
theorem compareVersion_equal_tuple_counterexample :
    isExtension "io.k8s.api.apps.v1.Deployment" = false ∧
    isExtension "io.k8s.api.batch.v1.Job" = false ∧
    getApiVersion "io.k8s.api.apps.v1.Deployment" = some "v1" ∧
    getApiVersion "io.k8s.api.batch.v1.Job" = some "v1" ∧
    compareVersion "io.k8s.api.apps.v1.Deployment" "io.k8s.api.batch.v1.Job" =
      some "io.k8s.api.batch.v1.Job" := by decide

/-- Lexicographic "less-or-equal" on `(major, versionType, minor)` triples:
the comparison `isSmallerVersion` effectively implements on parseable tokens
(its `lhsMinor <= rhsMinor` branch absorbs equality). -/
def tupleLE (x y : Nat × Nat × Nat) : Bool :=
  decide (x.1 < y.1) ||
    (decide (x.1 = y.1) &&
      (decide (x.2.1 < y.2.1) ||
        (decide (x.2.1 = y.2.1) && decide (x.2.2 ≤ y.2.2))))

/-- On tokens whose regex captures parse, `isSmallerVersion` returns the
lexicographic ≤ of the `(major, versionType, minor)` triples. -/
theorem isSmallerVersion_spec (lhs rhs : String) (lm rm : String × String × String)
    (lMaj rMaj lMin rMin : Nat)
    (hl : vMatch lhs = some lm) (hr : vMatch rhs = some rm)
    (hlMaj : getMajorVersion lm = some lMaj) (hrMaj : getMajorVersion rm = some rMaj)
    (hlMin : getMinorVersion lm = some lMin) (hrMin : getMinorVersion rm = some rMin) :
    isSmallerVersion lhs rhs =
      some (tupleLE (lMaj, getVersionType lhs, lMin) (rMaj, getVersionType rhs, rMin)) := by
  unfold isSmallerVersion
  rw [hl, hr]
  dsimp only
  rw [hlMaj, hrMaj]
  dsimp only
  rcases Nat.lt_trichotomy lMaj rMaj with h | h | h
  · rw [if_pos h]
    simp [tupleLE, h]
  · subst h
    rw [if_neg (lt_irrefl lMaj), if_neg (lt_irrefl lMaj)]
    rcases Nat.lt_trichotomy (getVersionType lhs) (getVersionType rhs) with ht | ht | ht
    · rw [if_pos ht]
      simp [tupleLE, ht]
    · rw [ht, if_neg (lt_irrefl _), if_neg (lt_irrefl _), hlMin, hrMin]
      dsimp only
      by_cases hm : lMin ≤ rMin
      · rw [if_pos hm]
        simp [tupleLE, ht, hm]
      · rw [if_neg hm]
        simp only [tupleLE, Bool.or_eq_false_iff, Bool.and_eq_false_iff]
        simp [ht]
        omega
    · rw [if_neg (by omega), if_pos ht]
      simp [tupleLE]
      omega
  · rw [if_neg (by omega), if_pos h]
    simp [tupleLE]
    omega

/-- C5 amended: on distinct keys with the same extension status whose version
tokens parse to equal `(major, versionType, minor)` tuples, `compareVersion`
returns its SECOND argument. -/
theorem compareVersion_equal_tuple_returns_second (a b va vb : String)
    (ma mb : String × String × String) (lMaj lMin : Nat)
    (hne : a ≠ b)
    (hext : isExtension a = isExtension b)
    (hva : getApiVersion a = some va) (hvb : getApiVersion b = some vb)
    (hma : vMatch va = some ma) (hmb : vMatch vb = some mb)
    (hmajA : getMajorVersion ma = some lMaj) (hmajB : getMajorVersion mb = some lMaj)
    (hminA : getMinorVersion ma = some lMin) (hminB : getMinorVersion mb = some lMin)
    (htype : getVersionType va = getVersionType vb) :
    compareVersion a b = some b := by
  have hsmaller : isSmallerVersion va vb = some true := by
    rw [isSmallerVersion_spec va vb ma mb lMaj lMaj lMin lMin hma hmb hmajA hmajB hminA hminB]
    simp [tupleLE, htype]
  unfold compareVersion
  rw [if_neg hne]
  rw [if_neg (by rw [hext]; simp)]
  rw [if_neg (by rw [hext]; simp)]
  rw [hva, hvb]
  dsimp only
  rw [hsmaller]

/-- Witness for C5's amended theorem at
`a = io.k8s.api.apps.v1.Deployment`, `b = io.k8s.api.batch.v1.Job`. -/
theorem compareVersion_equal_tuple_returns_second_witness :
    compareVersion "io.k8s.api.apps.v1.Deployment" "io.k8s.api.batch.v1.Job" =
      some "io.k8s.api.batch.v1.Job" :=
  compareVersion_equal_tuple_returns_second
    "io.k8s.api.apps.v1.Deployment" "io.k8s.api.batch.v1.Job" "v1" "v1"
    ("1", "", "") ("1", "", "") 1 maxInt32
    (by decide) (by decide) (by decide) (by decide) (by decide) (by decide)
    (by decide) (by decide) (by decide) (by decide) (by decide)

/-! ## Claim C6: `getVersionType` -/

/-- C6 counterexample: the string `"alpha"` contains the substring `alpha`
but `getVersionType` classifies it as GA (3), because the Go code tests
`strings.Index(apiVersion, "alpha") > 0` — strictly positive — and here the
substring occurs at index 0. -/
theorem getVersionType_contains_counterexample :
    goContains "alpha" "alpha" = true ∧ getVersionType "alpha" = gaVersion := by
  decide

/-- C6 amended: `getVersionType s` is `alpha` (1) exactly when `alpha` occurs
in `s` at a strictly positive index — that is, occurs as a substring but not
as a prefix; `beta` (2) when that fails and `beta` occurs at a strictly
positive index; `ga` (3) otherwise. -/
theorem getVersionType_spec (s : String) :
    getVersionType s =
      if ("alpha".data <:+: s.data) ∧ ¬ ("alpha".data <+: s.data) then alphaVersion
      else if ("beta".data <:+: s.data) ∧ ¬ ("beta".data <+: s.data) then betaVersion
      else gaVersion := by
  unfold getVersionType
  by_cases hA : ("alpha".data <:+: s.data) ∧ ¬ ("alpha".data <+: s.data)
  · rw [if_pos ((goIndex_pos_iff s "alpha").mpr hA), if_pos hA]
  · rw [if_neg (fun h => hA ((goIndex_pos_iff s "alpha").mp h)), if_neg hA]
    by_cases hB : ("beta".data <:+: s.data) ∧ ¬ ("beta".data <+: s.data)
    · rw [if_pos ((goIndex_pos_iff s "beta").mpr hB), if_pos hB]
    · rw [if_neg (fun h => hB ((goIndex_pos_iff s "beta").mp h)), if_neg hB]

/-! ## Schema Walker (src/pkg/Visitor.go)

Go `interface{}` values decoded from JSON are modelled by `JValue`; the
dynamic type switch of `visitJSON` becomes a `match`.  The numeric payloads
(`float64`, `int64`) are carried as `Int` — the walker never inspects them.
`jother` stands for any dynamic type outside the switched ones (hits the
`default` case).
-/

inductive JValue where
  | jnull
  | jbool (b : Bool)
  | jnum (x : Int)
  | jstr (s : String)
  | jint (n : Int)
  | jarr (xs : List JValue)
  | jobj (fields : List (String × JValue))
  | jother

/-- The slice of `openapi3.Schema` the repo code reads: `Description`,
`Properties` (a Go map, modelled as an association list) and `Items`
(`nil` pointer modelled as `none`). -/
inductive Schema where
  | mk (description : String) (properties : List (String × Schema)) (items : Option Schema)

/-- `Schema.Description`. -/
def Schema.description : Schema → String
  | .mk d _ _ => d

/-- `Schema.Properties`. -/
def Schema.properties : Schema → List (String × Schema)
  | .mk _ p _ => p

/-- `Schema.Items` (`none` = nil pointer). -/
def Schema.items : Schema → Option Schema
  | .mk _ _ i => i

/-- `SchemaSettings` (Visitor.go:26). -/
structure SchemaSettings where
  multiError : Bool
deriving DecidableEq

/-- The repo's `SchemaError` struct (declared outside src/; its fields
`Value`, `Schema`, `SchemaField`, `Reason` are fixed by the literals in
Visitor.go:39-44 and the spec §4.4 finding `{value, schema, field, reason}`). -/
structure SchemaError where
  value : JValue
  schema : Schema
  schemaField : String
  reason : String

mutual

/-- `visitJSON` (Visitor.go:34).  `none` models a Go panic (nil `Items`
dereference in `visitJSONArray` below). -/
def visitJSON (key : String) (schema : Schema) (value : JValue)
    (settings : SchemaSettings) : Option (List SchemaError) :=
  match value with
  | .jnull | .jbool _ | .jnum _ | .jstr _ | .jint _ =>
    if goContains (goToLower schema.description) "deprecated" then
      some [{ value := JValue.jstr "", schema := schema, schemaField := key,
              reason := schema.description }]
    else some []
  | .jarr xs => visitJSONArray key schema xs settings
  | .jobj fields => visitJSONObject key schema fields settings
  | .jother =>
    some [{ value := JValue.jother, schema := schema, schemaField := key,
            reason := "unhandled key " ++ key }]
termination_by (sizeOf value, 0)

/-- `visitJSONArray` (Visitor.go:64).  The loop body dereferences
`schema.Items.Value`; with a nil `Items` and a non-empty array this panics
(`none`).  An empty array never evaluates the body, as in Go. -/
def visitJSONArray (key : String) (schema : Schema) (object : List JValue)
    (settings : SchemaSettings) : Option (List SchemaError) :=
  match object with
  | [] => some []
  | obj :: rest =>
    match Schema.items schema with
    | none => none
    | some itemSchema =>
      match visitJSON key itemSchema obj settings with
      | none => none
      | some schemaError =>
        match visitJSONArray key schema rest settings with
        | none => none
        | some me => some (schemaError ++ me)
termination_by (sizeOf object, 0)

/-- `visitJSONObject` (Visitor.go:75): object-level deprecation test, then
the per-property loop (`visitJSONProperties`). -/
def visitJSONObject (key : String) (schema : Schema) (object : List (String × JValue))
    (settings : SchemaSettings) : Option (List SchemaError) :=
  let deprecatedHere := goContains (goToLower schema.description) "deprecated"
  let me : List SchemaError :=
    if deprecatedHere then
      [{ value := JValue.jstr "", schema := schema, schemaField := key,
         reason := schema.description }]
    else []
  if deprecatedHere ∧ ¬ settings.multiError then some me
  else
    match visitJSONProperties schema object settings with
    | none => none
    | some rest => some (me ++ rest)
termination_by (sizeOf object, 1)

/-- The `for k, v := range object` loop of `visitJSONObject`
(Visitor.go:89-102): keys declared in `schema.Properties` recurse, unknown
keys are skipped, and without `MultiError` the first non-empty batch of
findings returns early. -/
def visitJSONProperties (schema : Schema) (object : List (String × JValue))
    (settings : SchemaSettings) : Option (List SchemaError) :=
  match object with
  | [] => some []
  | (k, v) :: rest =>
    match List.lookup k (Schema.properties schema) with
    | some s =>
      match visitJSON k s v settings with
      | none => none
      | some schemaError =>
        if schemaError.isEmpty = false ∧ ¬ settings.multiError then some schemaError
        else
          match visitJSONProperties schema rest settings with
          | none => none
          | some more => some (schemaError ++ more)
    | none => visitJSONProperties schema rest settings
termination_by (sizeOf object, 0)

end

/-- `VisitJSON` (Visitor.go:30), the exported entry point. -/
def VisitJSON (key : String) (schema : Schema) (value : JValue)
    (settings : SchemaSettings) : Option (List SchemaError) :=
  visitJSON key schema value settings

/-- The scalar cases of the `visitJSON` type switch: nil, bool, float64,
string, int64. -/
def isScalar : JValue → Bool
  | .jnull | .jbool _ | .jnum _ | .jstr _ | .jint _ => true
  | _ => false

/-! ## Claim C3: deprecation findings of the Schema Walker -/

/-- C3: for scalar values the walker emits exactly one finding — whose
`Reason` is the full description and whose field is the caller-supplied
key — iff the case-folded description contains `deprecated`; and
`visitJSONObject` applies the same case-insensitive test at the object
level: when it passes, the object-level finding is emitted first; when it
fails, the output is exactly the per-property walk (no object finding). -/
theorem visitJSON_deprecation_case_insensitive
    (key : String) (schema : Schema) (value : JValue) (settings : SchemaSettings)
    (fields : List (String × JValue))
    (h : isScalar value = true) :
    (∃ l, visitJSON key schema value settings = some l ∧
       l.length = (if "deprecated".data <:+: (goToLower schema.description).data
         then 1 else 0) ∧
       ∀ e ∈ l, e.reason = schema.description ∧ e.schemaField = key ∧
         e.value = JValue.jstr "")
  ∧ (∀ l, visitJSONObject key schema fields settings = some l →
       "deprecated".data <:+: (goToLower schema.description).data →
       l.head? = some { value := JValue.jstr "", schema := schema,
                        schemaField := key, reason := schema.description })
  ∧ (¬ "deprecated".data <:+: (goToLower schema.description).data →
       visitJSONObject key schema fields settings =
         visitJSONProperties schema fields settings) := by
  have hiff := goContains_iff_infix (goToLower schema.description) "deprecated"
  refine ⟨?_, ?_, ?_⟩
  · by_cases hc : goContains (goToLower schema.description) "deprecated" = true
    · have hinf := hiff.mp hc
      cases value <;> simp_all [visitJSON, isScalar]
    · have hinf : ¬ "deprecated".data <:+: (goToLower schema.description).data :=
        fun hx => hc (hiff.mpr hx)
      cases value <;> simp_all [visitJSON, isScalar]
  · intro l hl hinf
    have hc : goContains (goToLower schema.description) "deprecated" = true := hiff.mpr hinf
    rw [visitJSONObject] at hl
    simp only [hc] at hl
    by_cases hm : settings.multiError = true
    · simp only [hm] at hl
      simp at hl
      cases hp : visitJSONProperties schema fields settings with
      | none => rw [hp] at hl; exact absurd hl (by simp)
      | some rest =>
        rw [hp] at hl
        simp only [Option.some_inj] at hl
        subst hl
        rfl
    · have hm2 : settings.multiError = false := by
        cases h0 : settings.multiError
        · rfl
        · exact absurd h0 hm
      simp only [hm2] at hl
      simp at hl
      subst hl
      rfl
  · intro hinf
    have hc : goContains (goToLower schema.description) "deprecated" = false := by
      cases h0 : goContains (goToLower schema.description) "deprecated"
      · rfl
      · exact absurd (hiff.mp h0) hinf
    rw [visitJSONObject]
    simp only [hc]
    simp
    cases hp : visitJSONProperties schema fields settings with
    | none => simp [hp]
    | some rest => simp [hp]

/-- Witness for C3 at a concrete scalar, schema and object: the schema's
description says "DEPRECATED", one finding is emitted, and the object-level
test fires on an empty object. -/
theorem visitJSON_deprecation_case_insensitive_witness :
    (∃ l, visitJSON "replicas"
        (Schema.mk "DEPRECATED - this field is ignored." [] none)
        (JValue.jint 3) (SchemaSettings.mk true) = some l ∧
       l.length = (if "deprecated".data <:+:
           (goToLower (Schema.mk "DEPRECATED - this field is ignored." [] none).description).data
         then 1 else 0) ∧
       ∀ e ∈ l, e.reason = (Schema.mk "DEPRECATED - this field is ignored." [] none).description ∧
         e.schemaField = "replicas" ∧ e.value = JValue.jstr "")
  ∧ (∀ l, visitJSONObject "replicas"
        (Schema.mk "DEPRECATED - this field is ignored." [] none) []
        (SchemaSettings.mk true) = some l →
       "deprecated".data <:+:
         (goToLower (Schema.mk "DEPRECATED - this field is ignored." [] none).description).data →
       l.head? = some { value := JValue.jstr "",
                        schema := Schema.mk "DEPRECATED - this field is ignored." [] none,
                        schemaField := "replicas",
                        reason := (Schema.mk "DEPRECATED - this field is ignored." [] none).description })
  ∧ (¬ "deprecated".data <:+:
         (goToLower (Schema.mk "DEPRECATED - this field is ignored." [] none).description).data →
       visitJSONObject "replicas"
           (Schema.mk "DEPRECATED - this field is ignored." [] none) []
           (SchemaSettings.mk true) =
         visitJSONProperties (Schema.mk "DEPRECATED - this field is ignored." [] none) []
           (SchemaSettings.mk true)) :=
  visitJSON_deprecation_case_insensitive "replicas"
    (Schema.mk "DEPRECATED - this field is ignored." [] none)
    (JValue.jint 3) (SchemaSettings.mk true) [] (by decide)

/-! ## Validator (src/pkg/Validator.go, src/unnamed/part_004)

The resource object handed to `ValidateObject` is a Go
`map[string]interface{}`, which may be `nil`: it is modelled as
`Option (List (String × JValue))` (`none` = nil map).  The kin-openapi
library's structural validator `scm.VisitJSON` and the
`x-kubernetes-group-version-kind` extension payload of a schema are external
to the repo and enter the model as oracles.
-/

/-- An error produced by the external kin-openapi structural validator
(`*openapi3.SchemaError`); opaque to the repo code except for its identity. -/
structure LibSchemaError where
  msg : String

/-- One element of an `openapi3.MultiError` as partitioned by
`ValidateObject`: a library `*openapi3.SchemaError`, the repo's
`*SchemaError`, or any other `error` value (e.g. a failed `JSONLookup`). -/
inductive VErr where
  | lib (e : LibSchemaError)
  | dep (e : SchemaError)
  | plain (msg : String)

/-- `KindInfo` (declared outside src/; fields fixed by their uses in
part_001: `Version`, `Group`, `RestPath`, `ComponentKey`, `IsGA`, and by
spec §3). -/
structure KindInfo where
  version : String
  group : String
  restPath : String
  componentKey : String
  isGA : Bool

/-- The repo's post-rewrite `ValidationResult` (declared outside src/;
fields fixed by their uses in Validator.go, part_004 and Util_test.go, and
by spec §3).  Go zero values are the field defaults. -/
structure ValidationResult where
  fileName : String := ""
  kind : String := ""
  apiVersion : String := ""
  validatedAgainstSchema : Bool := false
  resourceName : String := ""
  resourceNamespace : String := ""
  deleted : Bool := false
  deprecated : Bool := false
  latestAPIVersion : String := ""
  errorsForOriginal : List LibSchemaError := []
  deprecationForOriginal : List SchemaError := []
  errorsForLatest : List LibSchemaError := []
  deprecationForLatest : List SchemaError := []

/-- The `kubeSpec` state (part_001:213) as read by the Validator:
`kindInfoMap`, the component schemas (`Components.Schemas.JSONLookup`),
and two oracles for external behaviour: the library validator
`scm.VisitJSON` (keyed by the component token) and the group/version
read out of the latest schema's extension by `getKeyForGVFromToken`. -/
structure KubeSpec where
  kindInfoMap : List (String × List KindInfo)
  schemas : List (String × Schema)
  libVisitJSON : String → JValue → List LibSchemaError
  gvOfToken : String → Option String

/-- Comma-ok string read `object[k].(string)`: `none` when the key is
absent or the value is not a string. -/
def goGetString (fields : List (String × JValue)) (k : String) : Option String :=
  match List.lookup k fields with
  | some (JValue.jstr s) => some s
  | _ => none

/-- Comma-ok map read `object[k].(map[string]interface{})`. -/
def goGetObj (fields : List (String × JValue)) (k : String) :
    Option (List (String × JValue)) :=
  match List.lookup k fields with
  | some (JValue.jobj m) => some m
  | _ => none

/-- `populateValidationResult` (Validator.go:196, identical in
part_004:103).  Returns `none` for the Go panic of the bare type assertion
`namespace = ns.(string)` when `metadata.namespace` holds a non-string
value; otherwise `some (result, maybe-error)`.  Note that the `ok` of the
`apiVersion` assertion is immediately shadowed by the `kind` assertion, so
a missing or non-string `apiVersion` is silently read as `""`. -/
def populateValidationResult (object : Option (List (String × JValue))) :
    Option (ValidationResult × Option String) :=
  match object with
  | none => some ({}, some "missing k8s object")
  | some fields =>
    let apiVersion := (goGetString fields "apiVersion").getD ""
    match goGetString fields "kind" with
    | none => some ({}, some "missing kind")
    | some kind =>
      match goGetObj fields "metadata" with
      | none => some ({}, some "missing metadata")
      | some metadata =>
        let ns : Option (Option String) :=
          match List.lookup "namespace" metadata with
          | some (JValue.jstr s) => some (some s)
          | some _ => none
          | none => some none
        match ns with
        | none => none
        | some nsv =>
          match goGetString metadata "name" with
          | none => some ({}, some "missing resource name")
          | some name =>
            some ({ kind := kind, apiVersion := apiVersion,
                    resourceNamespace := nsv.getD "undefined",
                    resourceName := name }, none)

/-- `kubeSpec.getKindsMappings` (Validator.go:263): resolve the original
and latest component keys from `kindInfoMap`.  The `len(parts) == 0` check
of the Go code is dead (`strings.Split` never returns an empty slice). -/
def getKindsMappings (ks : KubeSpec) (object : Option (List (String × JValue))) :
    String × String × Option String :=
  match object with
  | none => ("", "", some "missing k8s object")
  | some fields =>
    let apiVersion := (goGetString fields "apiVersion").getD ""
    match goGetString fields "kind" with
    | none => ("", "", some "missing kind")
    | some kind =>
      let parts0 := goSplitChar apiVersion '/'
      let parts := if parts0.length = 1 then ["", parts0.getD 0 ""] else parts0
      match List.lookup (goToLower kind) ks.kindInfoMap with
      | some kis =>
        let original := kis.foldl (fun acc ki =>
          if parts.getD 0 "" = ki.group ∧ parts.getD 1 "" = ki.version ∧
              ki.restPath.length > 0
          then ki.componentKey else acc) ""
        let latest :=
          match kis.getLast? with
          | some ki => ki.componentKey
          | none => ""
        (original, latest, none)
      | none => ("", "", none)

/-- The `*openapi3.SchemaError` elements of a `MultiError`, in order (the
partition loop of `ValidateObject`). -/
def libErrorsOf (l : List VErr) : List LibSchemaError :=
  l.filterMap fun e => match e with | .lib se => some se | _ => none

/-- The repo `*SchemaError` elements of a `MultiError`, in order. -/
def depErrorsOf (l : List VErr) : List SchemaError :=
  l.filterMap fun e => match e with | .dep de => some de | _ => none

/-- `applySchema` (Validator.go:225 and part_004:132 — identical bodies up
to the `VisitJSON` key argument, which part_004 passes as the token).
`none` models a panic propagating out of the deprecation walker. -/
def applySchema (schemas : List (String × Schema))
    (libVisit : String → JValue → List LibSchemaError)
    (object : JValue) (token : String) : Option (List VErr × Bool) :=
  match List.lookup token schemas with
  | none => some ([VErr.plain ("schema not found: " ++ token)], false)
  | some scm =>
    match VisitJSON token scm object (SchemaSettings.mk true) with
    | none => none
    | some depError =>
      let deprecated := !depError.isEmpty
      let validationError := depError.map VErr.dep
      let libErrs := (libVisit token object).map VErr.lib
      some (validationError ++ libErrs, deprecated)

/-- `kubeSpec.getKeyForGVFromToken` (Validator.go:250), with the extension
payload supplied by the `gvOfToken` oracle. -/
def getKeyForGVFromToken (ks : KubeSpec) (token : String) : Option String :=
  match List.lookup token ks.schemas with
  | none => none
  | some _ => ks.gvOfToken token

/-- `kubeSpec.ValidateObject` (Validator.go:145).  `none` models a Go
panic (non-string `metadata.namespace`, or a walker panic inside
`applySchema`); otherwise `some (result, maybe-error)`.  The error from
`getKeyForGVFromToken` on line 191 is assigned and then discarded by the
final `return validationResult, nil`, which is mirrored here. -/
def ValidateObject (ks : KubeSpec) (object : Option (List (String × JValue))) :
    Option (ValidationResult × Option String) :=
  match populateValidationResult object with
  | none => none
  | some (vr0, err0) =>
    let vr : ValidationResult := { vr0 with validatedAgainstSchema := true }
    match err0 with
    | some e => some (vr, some e)
    | none =>
      match getKindsMappings ks object with
      | (_, _, some e) => some (vr, some e)
      | (original, latest, none) =>
        let objVal := JValue.jobj (object.getD [])
        let phase1 : Option ValidationResult :=
          if original.length > 0 then
            (applySchema ks.schemas ks.libVisitJSON objVal original).map
              (fun p =>
                { vr with errorsForOriginal := libErrorsOf p.1,
                          deprecationForOriginal := depErrorsOf p.1,
                          deprecated := p.2 })
          else if original.length = 0 ∧ latest.length > 0 then
            some { vr with deleted := true }
          else some vr
        match phase1 with
        | none => none
        | some vr1 =>
          if latest.length > 0 ∧ original ≠ latest then
            match applySchema ks.schemas ks.libVisitJSON objVal latest with
            | none => none
            | some p =>
              some ({ vr1 with errorsForLatest := libErrorsOf p.1,
                               deprecationForLatest := depErrorsOf p.1,
                               latestAPIVersion :=
                                 (getKeyForGVFromToken ks latest).getD "" }, none)
          else some (vr1, none)

/-! ### The older `kubernetesSpec` validator (src/unnamed/part_004) -/

/-- The `kubernetesSpec` state (part_003:49): `kindMap`, `componentMap`,
`pathMap`, plus the same two external oracles as `KubeSpec`. -/
structure KubernetesSpec where
  kindMap : List (String × String)
  componentMap : List (String × String)
  pathMap : List (String × String)
  schemas : List (String × Schema)
  libVisitJSON : String → JValue → List LibSchemaError
  gvOfToken : String → Option String

/-- `kubernetesSpec.getKindsMappings` (part_004:170): `original` from
`pathMap`/`componentMap` under the lower-cased `apiVersion/kind` key,
`latest` from `kindMap` under the lower-cased kind. -/
def kubernetesSpecGetKindsMappings (ks : KubernetesSpec)
    (object : Option (List (String × JValue))) : String × String × Option String :=
  match object with
  | none => ("", "", some "missing k8s object")
  | some fields =>
    let apiVersion := (goGetString fields "apiVersion").getD ""
    match goGetString fields "kind" with
    | none => ("", "", some "missing kind")
    | some kind =>
      let gvk := goToLower (apiVersion ++ "/" ++ kind)
      let original :=
        match List.lookup gvk ks.pathMap with
        | some _ => (List.lookup gvk ks.componentMap).getD ""
        | none => ""
      match List.lookup (goToLower kind) ks.kindMap with
      | none => (original, "", none)
      | some latest => (original, latest, none)

/-- `kubernetesSpec.ValidateObject` (part_004:50).  Identical to
`kubeSpec.ValidateObject` except for the classification branch: here the
`else` arm sets `Deleted = true` whenever `original` is empty — even when
`latest` is empty too (unknown Kind). -/
def kubernetesSpecValidateObject (ks : KubernetesSpec)
    (object : Option (List (String × JValue))) :
    Option (ValidationResult × Option String) :=
  match populateValidationResult object with
  | none => none
  | some (vr0, err0) =>
    let vr : ValidationResult := { vr0 with validatedAgainstSchema := true }
    match err0 with
    | some e => some (vr, some e)
    | none =>
      match kubernetesSpecGetKindsMappings ks object with
      | (_, _, some e) => some (vr, some e)
      | (original, latest, none) =>
        let objVal := JValue.jobj (object.getD [])
        let phase1 : Option ValidationResult :=
          if original.length > 0 then
            (applySchema ks.schemas ks.libVisitJSON objVal original).map
              (fun p =>
                { vr with errorsForOriginal := libErrorsOf p.1,
                          deprecationForOriginal := depErrorsOf p.1,
                          deprecated := p.2 })
          else some { vr with deleted := true }
        match phase1 with
        | none => none
        | some vr1 =>
          if latest.length > 0 ∧ original ≠ latest then
            match applySchema ks.schemas ks.libVisitJSON objVal latest with
            | none => none
            | some p =>
              some ({ vr1 with errorsForLatest := libErrorsOf p.1,
                               deprecationForLatest := depErrorsOf p.1,
                               latestAPIVersion :=
                                 (match List.lookup latest ks.schemas with
                                  | none => none
                                  | some _ => ks.gvOfToken latest).getD "" }, none)
          else some (vr1, none)

/-! ## Facts about `populateValidationResult` and `ValidateObject` -/

theorem string_length_zero_iff (s : String) : s.length = 0 ↔ s = "" := by
  cases s with
  | mk data =>
    cases data with
    | nil => simp [String.length]
    | cons c cs =>
      simp [String.length]
      intro h
      have := congrArg String.data h
      simp at this

theorem string_length_pos_iff (s : String) : 0 < s.length ↔ s ≠ "" := by
  rw [Nat.pos_iff_ne_zero, ne_eq, string_length_zero_iff]

/-- A successfully populated result carries only the four identity fields:
everything else still has its Go zero value. -/
theorem populateValidationResult_ok_shape (fields : List (String × JValue))
    (vr0 : ValidationResult)
    (h : populateValidationResult (some fields) = some (vr0, none)) :
    vr0.validatedAgainstSchema = false ∧ vr0.deleted = false ∧ vr0.deprecated = false ∧
    vr0.latestAPIVersion = "" ∧ vr0.errorsForOriginal = [] ∧
    vr0.deprecationForOriginal = [] ∧ vr0.errorsForLatest = [] ∧
    vr0.deprecationForLatest = [] := by
  unfold populateValidationResult at h
  repeat' split at h
  all_goals simp_all
  all_goals (subst h; simp)

/-! ## Claim C9: `ValidatedAgainstSchema` is always true -/

/-- C9: every `(result, error)` pair actually returned by
`kubeSpec.ValidateObject` — including the pairs returned alongside an error
for malformed resources and the pairs for unknown Kinds — has
`ValidatedAgainstSchema = true`; the flag is set unconditionally right
after `populateValidationResult` and never reset. -/
theorem validateObject_always_validatedAgainstSchema (ks : KubeSpec)
    (object : Option (List (String × JValue))) (r : ValidationResult)
    (e : Option String)
    (h : ValidateObject ks object = some (r, e)) :
    r.validatedAgainstSchema = true := by
  unfold ValidateObject at h
  cases hp : populateValidationResult object with
  | none => rw [hp] at h; cases h
  | some pr =>
    obtain ⟨vr0, err0⟩ := pr
    rw [hp] at h
    dsimp only at h
    cases err0 with
    | some e0 =>
      simp only [Option.some_inj, Prod.mk.injEq] at h
      rw [← h.1]
    | none =>
      dsimp only at h
      rcases hg : getKindsMappings ks object with ⟨original, latest, gerr⟩
      rw [hg] at h
      cases gerr with
      | some e1 =>
        dsimp only at h
        simp only [Option.some_inj, Prod.mk.injEq] at h
        rw [← h.1]
      | none =>
        dsimp only at h
        split at h
        · cases h
        · rename_i vr1 hvr1
          split at hvr1
          · rcases Option.map_eq_some'.mp hvr1 with ⟨p, _, hf⟩
            subst hf
            split at h
            · split at h
              · cases h
              · simp only [Option.some_inj, Prod.mk.injEq] at h
                rw [← h.1]
            · simp only [Option.some_inj, Prod.mk.injEq] at h
              rw [← h.1]
          · split at hvr1 <;>
              (simp only [Option.some_inj] at hvr1
               subst hvr1
               split at h
               · split at h
                 · cases h
                 · simp only [Option.some_inj, Prod.mk.injEq] at h
                   rw [← h.1]
               · simp only [Option.some_inj, Prod.mk.injEq] at h
                 rw [← h.1])

/-- Witness for C9: a malformed resource (missing kind) still produces a
result with `ValidatedAgainstSchema = true`, alongside its error. -/
theorem validateObject_always_validatedAgainstSchema_witness :
    ({ validatedAgainstSchema := true : ValidationResult }).validatedAgainstSchema = true :=
  validateObject_always_validatedAgainstSchema
    ⟨[], [], fun _ _ => [], fun _ => none⟩
    (some [("metadata", JValue.jobj [("name", JValue.jstr "x")])])
    { validatedAgainstSchema := true } (some "missing kind") rfl

/-! ## Claim C1: the Deleted classification -/

/-- C1 counterexample: the `kubernetesSpec.ValidateObject` variant cited by
the claim (part_004:50) sets `Deleted = true` in its bare `else` branch,
so an accepted object whose Kind is unknown (original AND latest both
empty) comes back `Deleted = true` — the claim says `Deleted` stays false
in that case. -/
theorem kubernetesSpec_unknown_kind_deleted_counterexample :
    kubernetesSpecGetKindsMappings
        ⟨[], [], [], [], fun _ _ => [], fun _ => none⟩
        (some [("apiVersion", JValue.jstr "v1"), ("kind", JValue.jstr "Foo"),
               ("metadata", JValue.jobj [("name", JValue.jstr "x")])]) =
      ("", "", none) ∧
    kubernetesSpecValidateObject
        ⟨[], [], [], [], fun _ _ => [], fun _ => none⟩
        (some [("apiVersion", JValue.jstr "v1"), ("kind", JValue.jstr "Foo"),
               ("metadata", JValue.jobj [("name", JValue.jstr "x")])]) =
      some ({ kind := "Foo", apiVersion := "v1", validatedAgainstSchema := true,
              resourceName := "x", resourceNamespace := "undefined",
              deleted := true }, none) :=
  ⟨rfl, rfl⟩

/-- C1 amended (holds for `kubeSpec.ValidateObject`, Validator.go:145): for
every accepted object, `Deleted = true` exactly when the resolved original
key is empty and the latest key is non-empty; when both are empty the
result is exactly the populated record with `ValidatedAgainstSchema = true`
— `Deleted` false and all four error lists empty.  The older
`kubernetesSpec.ValidateObject` (part_004) instead sets `Deleted = true`
whenever the original key is empty, even for unknown Kinds. -/
theorem kubeSpec_validateObject_deleted_classification
    (ks : KubeSpec) (fields : List (String × JValue)) (vr0 : ValidationResult)
    (original latest : String)
    (hpop : populateValidationResult (some fields) = some (vr0, none))
    (hmap : getKindsMappings ks (some fields) = (original, latest, none)) :
    (∀ vr e, ValidateObject ks (some fields) = some (vr, e) →
       e = none ∧ (vr.deleted = true ↔ (original = "" ∧ latest ≠ "")))
  ∧ (original = "" → latest = "" →
       ValidateObject ks (some fields) =
         some ({ vr0 with validatedAgainstSchema := true }, none) ∧
       vr0.deleted = false ∧ vr0.errorsForOriginal = [] ∧
       vr0.deprecationForOriginal = [] ∧ vr0.errorsForLatest = [] ∧
       vr0.deprecationForLatest = []) := by
  obtain ⟨hvas, hdel, hdep, hlat, he1, he2, he3, he4⟩ :=
    populateValidationResult_ok_shape fields vr0 hpop
  constructor
  · intro vr e h
    unfold ValidateObject at h
    rw [hpop] at h
    dsimp only at h
    rw [hmap] at h
    dsimp only at h
    by_cases ho : 0 < original.length
    · have honeq : original ≠ "" := (string_length_pos_iff original).mp ho
      rw [if_pos ho] at h
      cases hA : applySchema ks.schemas ks.libVisitJSON
          (JValue.jobj ((some fields).getD [])) original with
      | none => rw [hA] at h; cases h
      | some p =>
        rw [hA] at h
        dsimp only [Option.map_some'] at h
        split at h
        · cases hB : applySchema ks.schemas ks.libVisitJSON
              (JValue.jobj ((some fields).getD [])) latest with
          | none => rw [hB] at h; cases h
          | some q =>
            rw [hB] at h
            simp only [Option.some_inj, Prod.mk.injEq] at h
            obtain ⟨hv, hee⟩ := h
            subst hv
            refine ⟨hee.symm, ?_⟩
            simp [hdel, honeq]
        · simp only [Option.some_inj, Prod.mk.injEq] at h
          obtain ⟨hv, hee⟩ := h
          subst hv
          refine ⟨hee.symm, ?_⟩
          simp [hdel, honeq]
    · have hoeq : original = "" :=
        (string_length_zero_iff original).mp (Nat.eq_zero_of_not_pos ho)
      rw [if_neg ho] at h
      by_cases hl : 0 < latest.length
      · have hlneq : latest ≠ "" := (string_length_pos_iff latest).mp hl
        rw [if_pos ⟨Nat.eq_zero_of_not_pos ho, hl⟩] at h
        dsimp only at h
        rw [if_pos ⟨hl, by rw [hoeq]; exact (Ne.symm hlneq)⟩] at h
        cases hB : applySchema ks.schemas ks.libVisitJSON
            (JValue.jobj ((some fields).getD [])) latest with
        | none => rw [hB] at h; cases h
        | some q =>
          rw [hB] at h
          simp only [Option.some_inj, Prod.mk.injEq] at h
          obtain ⟨hv, hee⟩ := h
          subst hv
          refine ⟨hee.symm, ?_⟩
          simp [hoeq, hlneq]
      · have hleq : latest = "" :=
          (string_length_zero_iff latest).mp (Nat.eq_zero_of_not_pos hl)
        rw [if_neg (by intro hc; exact hl hc.2)] at h
        dsimp only at h
        rw [if_neg (by intro hc; exact hl hc.1)] at h
        simp only [Option.some_inj, Prod.mk.injEq] at h
        obtain ⟨hv, hee⟩ := h
        subst hv
        refine ⟨hee.symm, ?_⟩
        simp [hdel, hleq]
  · intro hoeq hleq
    refine ⟨?_, hdel, he1, he2, he3, he4⟩
    unfold ValidateObject
    rw [hpop]
    dsimp only
    rw [hmap]
    dsimp only
    rw [if_neg (by rw [hoeq]; simp)]
    rw [if_neg (by rw [hleq]; simp)]
    dsimp only
    rw [if_neg (by rw [hleq]; simp)]

/-- Witness for C1's amended theorem: an accepted `v1/Foo` object against an
empty catalogue (unknown Kind, original = latest = ""). -/
theorem kubeSpec_validateObject_deleted_classification_witness :
    (∀ vr e, ValidateObject ⟨[], [], fun _ _ => [], fun _ => none⟩
        (some [("apiVersion", JValue.jstr "v1"), ("kind", JValue.jstr "Foo"),
               ("metadata", JValue.jobj [("name", JValue.jstr "x")])]) = some (vr, e) →
       e = none ∧ (vr.deleted = true ↔ (("" : String) = "" ∧ ("" : String) ≠ "")))
  ∧ (("" : String) = "" → ("" : String) = "" →
       ValidateObject ⟨[], [], fun _ _ => [], fun _ => none⟩
          (some [("apiVersion", JValue.jstr "v1"), ("kind", JValue.jstr "Foo"),
                 ("metadata", JValue.jobj [("name", JValue.jstr "x")])]) =
         some ({ ({ kind := "Foo", apiVersion := "v1", resourceNamespace := "undefined",
                    resourceName := "x" } : ValidationResult) with
                 validatedAgainstSchema := true }, none) ∧
       ({ kind := "Foo", apiVersion := "v1", resourceNamespace := "undefined",
          resourceName := "x" } : ValidationResult).deleted = false ∧
       ({ kind := "Foo", apiVersion := "v1", resourceNamespace := "undefined",
          resourceName := "x" } : ValidationResult).errorsForOriginal = [] ∧
       ({ kind := "Foo", apiVersion := "v1", resourceNamespace := "undefined",
          resourceName := "x" } : ValidationResult).deprecationForOriginal = [] ∧
       ({ kind := "Foo", apiVersion := "v1", resourceNamespace := "undefined",
          resourceName := "x" } : ValidationResult).errorsForLatest = [] ∧
       ({ kind := "Foo", apiVersion := "v1", resourceNamespace := "undefined",
          resourceName := "x" } : ValidationResult).deprecationForLatest = []) :=
  kubeSpec_validateObject_deleted_classification
    ⟨[], [], fun _ _ => [], fun _ => none⟩
    [("apiVersion", JValue.jstr "v1"), ("kind", JValue.jstr "Foo"),
     ("metadata", JValue.jobj [("name", JValue.jstr "x")])]
    { kind := "Foo", apiVersion := "v1", resourceNamespace := "undefined",
      resourceName := "x" }
    "" "" rfl rfl

/-! ## Claim C7: missing `apiVersion` -/

/-- C7 counterexample: an object with `kind` PRESENT and `apiVersion`
ABSENT is accepted by `populateValidationResult` (no error; `APIVersion`
silently read as `""`), where the claim requires rejection as malformed;
the `ok` of the `apiVersion` type assertion is shadowed by the `kind`
assertion on the next line. -/
theorem populate_missing_apiVersion_counterexample :
    List.lookup "apiVersion"
        [("kind", JValue.jstr "Pod"),
         ("metadata", JValue.jobj [("name", JValue.jstr "x")])] = none ∧
    populateValidationResult
        (some [("kind", JValue.jstr "Pod"),
               ("metadata", JValue.jobj [("name", JValue.jstr "x")])]) =
      some ({ kind := "Pod", apiVersion := "", resourceNamespace := "undefined",
              resourceName := "x" }, none) :=
  ⟨rfl, rfl⟩

/-- C7 amended: a missing `apiVersion` field is ALWAYS tolerated by
`populateValidationResult` (read as the empty string), whether or not
`kind` is present; rejection is decided solely by `kind`, `metadata` and
`metadata.name`.  In particular an object with `kind` present and
`apiVersion` absent is accepted, and an object lacking both is rejected
with "missing kind" (because of the missing kind, not the apiVersion). -/
theorem populate_missing_apiVersion_tolerated
    (fields metadata : List (String × JValue)) (kind name : String)
    (hapi : List.lookup "apiVersion" fields = none)
    (hkind : List.lookup "kind" fields = some (JValue.jstr kind))
    (hmeta : List.lookup "metadata" fields = some (JValue.jobj metadata))
    (hname : List.lookup "name" metadata = some (JValue.jstr name))
    (hns : ∀ v, List.lookup "namespace" metadata = some v → ∃ s, v = JValue.jstr s) :
    (∃ vr, populateValidationResult (some fields) = some (vr, none) ∧
       vr.apiVersion = "" ∧ vr.kind = kind ∧ vr.resourceName = name)
  ∧ (∀ gs, List.lookup "kind" gs = none →
       populateValidationResult (some gs) = some ({}, some "missing kind")) := by
  have h1 : goGetString fields "apiVersion" = none := by
    unfold goGetString; rw [hapi]
  have h2 : goGetString fields "kind" = some kind := by
    unfold goGetString; rw [hkind]
  have h3 : goGetObj fields "metadata" = some metadata := by
    unfold goGetObj; rw [hmeta]
  have h4 : goGetString metadata "name" = some name := by
    unfold goGetString; rw [hname]
  constructor
  · unfold populateValidationResult
    dsimp only
    rw [h2, h3]
    dsimp only
    cases hv : List.lookup "namespace" metadata with
    | none =>
      rw [h4]
      exact ⟨_, by rw [h1], rfl, rfl, rfl⟩
    | some v =>
      obtain ⟨s, hs⟩ := hns v hv
      subst hs
      rw [h4]
      exact ⟨_, by rw [h1], rfl, rfl, rfl⟩
  · intro gs hgs
    unfold populateValidationResult
    dsimp only
    have : goGetString gs "kind" = none := by unfold goGetString; rw [hgs]
    rw [this]

/-- Witness for C7's amended theorem at a concrete object carrying `kind`
but no `apiVersion`. -/
theorem populate_missing_apiVersion_tolerated_witness :
    (∃ vr, populateValidationResult
        (some [("kind", JValue.jstr "Pod"),
               ("metadata", JValue.jobj [("name", JValue.jstr "x")])]) =
        some (vr, none) ∧
       vr.apiVersion = "" ∧ vr.kind = "Pod" ∧ vr.resourceName = "x")
  ∧ (∀ gs, List.lookup "kind" gs = none →
       populateValidationResult (some gs) = some ({}, some "missing kind")) :=
  populate_missing_apiVersion_tolerated
    [("kind", JValue.jstr "Pod"),
     ("metadata", JValue.jobj [("name", JValue.jstr "x")])]
    [("name", JValue.jstr "x")] "Pod" "x" rfl rfl rfl rfl
    (by intro v hv; cases hv)

/-! ## Claim C10: totality of `ValidateObject` -/

/-- C10 counterexample: a parsed object whose `metadata.namespace` holds the
number `123` makes `kubeSpec.ValidateObject` panic (the bare type assertion
`namespace = ns.(string)` in `populateValidationResult`), modelled as
`none`: no `(result, error)` pair is returned. -/
theorem validateObject_nonstring_namespace_counterexample :
    ValidateObject ⟨[], [], fun _ _ => [], fun _ => none⟩
      (some [("apiVersion", JValue.jstr "v1"), ("kind", JValue.jstr "Foo"),
             ("metadata", JValue.jobj [("name", JValue.jstr "x"),
                                       ("namespace", JValue.jnum 123)])]) = none ∧
    populateValidationResult
      (some [("apiVersion", JValue.jstr "v1"), ("kind", JValue.jstr "Foo"),
             ("metadata", JValue.jobj [("name", JValue.jstr "x"),
                                       ("namespace", JValue.jnum 123)])]) = none :=
  ⟨rfl, rfl⟩

/-- C10 amended: `ValidateObject` is not total, and its field-population
phase `populateValidationResult` (the code the claim cites) is total
exactly up to the namespace assertion: it returns a `(result, error)` pair
for every parsed object whose `metadata.namespace`, when present under a
map-typed `metadata`, is a string, and panics on the bare `ns.(string)`
assertion when it holds a non-string value.  `ValidateObject` as a whole
can still panic on a string-namespace object through the schema walker
(the nil-`Items` dereference of Visitor.go:67), so no totality statement
is made for it beyond this phase. -/
theorem populate_total_when_namespace_string
    (object : Option (List (String × JValue)))
    (hns : ∀ fields metadata, object = some fields →
       goGetObj fields "metadata" = some metadata →
       ∀ v, List.lookup "namespace" metadata = some v → ∃ s, v = JValue.jstr s) :
    (populateValidationResult object).isSome = true := by
  cases object with
  | none => rfl
  | some fields =>
    unfold populateValidationResult
    dsimp only
    cases hk : goGetString fields "kind" with
    | none => rfl
    | some kind =>
      dsimp only
      cases hm : goGetObj fields "metadata" with
      | none => rfl
      | some metadata =>
        dsimp only
        cases hv : List.lookup "namespace" metadata with
        | none =>
          dsimp only
          cases goGetString metadata "name" <;> rfl
        | some v =>
          obtain ⟨s, hs⟩ := hns fields metadata rfl hm v hv
          subst hs
          dsimp only
          cases goGetString metadata "name" <;> rfl

/-- Witness for C10's amended theorem at an object with a string
namespace. -/
theorem populate_total_when_namespace_string_witness :
    (populateValidationResult
      (some [("apiVersion", JValue.jstr "v1"), ("kind", JValue.jstr "Foo"),
             ("metadata", JValue.jobj [("name", JValue.jstr "x"),
                                       ("namespace", JValue.jstr "ns1")])])).isSome = true :=
  populate_total_when_namespace_string
    (some [("apiVersion", JValue.jstr "v1"), ("kind", JValue.jstr "Foo"),
           ("metadata", JValue.jobj [("name", JValue.jstr "x"),
                                     ("namespace", JValue.jstr "ns1")])])
    (by
      intro fields metadata hf hm v hv
      cases hf
      rw [show goGetObj [("apiVersion", JValue.jstr "v1"), ("kind", JValue.jstr "Foo"),
            ("metadata", JValue.jobj [("name", JValue.jstr "x"),
              ("namespace", JValue.jstr "ns1")])] "metadata" =
          some [("name", JValue.jstr "x"), ("namespace", JValue.jstr "ns1")] from rfl] at hm
      injection hm with hm
      subst hm
      rw [show List.lookup "namespace" [("name", JValue.jstr "x"),
            ("namespace", JValue.jstr "ns1")] = some (JValue.jstr "ns1") from rfl] at hv
      injection hv with hv
      subst hv
      exact ⟨"ns1", rfl⟩)

/-! ## Catalogue (src/unnamed/part_003, src/unnamed/part_002, src/unnamed/part_001)

The loaded OpenAPI document enters the model as the slice the catalogue
builders read: component schemas with their optional
`x-kubernetes-group-version-kind` extension, and paths with optional POST /
PUT operations carrying the same extension.
-/

/-- A parsed `{group, version, kind}` entry of the vendor extension (Go
`map[string]string`; an absent key reads as `""`, which is how the code
tests it). -/
structure GVKRaw where
  group : String
  version : String
  kind : String

/-- The raw JSON payload of the extension: a single object or an array of
objects. -/
inductive GVKExt where
  | one (m : GVKRaw)
  | arr (ms : List GVKRaw)

/-- `parseGVK` (part_002:86): arrays with more than one entry are rejected
("multiple x-kubernetes-group-version-kind hence skipping"); an empty array
fails the map unmarshal and errors as well; a one-element array or a single
object parses. -/
def parseGVK : GVKExt → Option GVKRaw
  | .one m => some m
  | .arr [m] => some m
  | .arr _ => none

/-- The `gvkFormat` / `gvFormat` key of one GVK entry: lower-cased
`group/version/kind`, or `version/kind` when the group is empty. -/
def keyOfGVK (gvk : GVKRaw) : String :=
  if gvk.group ≠ "" then goToLower (gvk.group ++ "/" ++ gvk.version ++ "/" ++ gvk.kind)
  else goToLower (gvk.version ++ "/" ++ gvk.kind)

/-- `getKeyForRawGVK` (part_002:75). -/
def getKeyForRawGVK (ext : GVKExt) : Option String :=
  match parseGVK ext with
  | none => none
  | some gvk => some (keyOfGVK gvk)

/-- `getKeyForGVK` (called at part_001:237 and 268; declared outside src/).
Modelled from the spec: §3's canonical GVK string form — `group/version/kind`
lower-cased, `version/kind` for the core group — i.e. the same computation
as `getKeyForRawGVK`. -/
def getKeyForGVK (ext : GVKExt) : Option String := getKeyForRawGVK ext

/-- A path operation, reduced to the only field the builders read. -/
structure OperationM where
  ext : Option GVKExt

/-- A path item: the optional POST and PUT operations. -/
structure PathItemM where
  post : Option OperationM
  put : Option OperationM

/-- A component schema, reduced to its key and optional extension. -/
structure ComponentM where
  name : String
  ext : Option GVKExt

/-- The slice of the loaded document the catalogue reads. -/
structure DocM where
  components : List ComponentM
  paths : List (String × PathItemM)

/-- `buildComponentMap` (part_003:193). -/
def buildComponentMap (doc : DocM) : List (String × String) :=
  doc.components.foldl (fun componentMap c =>
    match c.ext with
    | none => componentMap
    | some gvk =>
      match getKeyForRawGVK gvk with
      | none => componentMap
      | some gvks => (gvks, c.name) :: componentMap) []

/-- The operation `buildPathMap` reads: POST when present, else PUT
(part_003:210-215). -/
def chosenOp (item : PathItemM) : Option OperationM :=
  match item.post with
  | some op => some op
  | none => item.put

/-- `buildPathMap` (part_003:207). -/
def buildPathMap (doc : DocM) : List (String × String) :=
  doc.paths.foldl (fun pathMap pv =>
    match chosenOp pv.2 with
    | none => pathMap
    | some op =>
      match op.ext with
      | none => pathMap
      | some gvk =>
        match getKeyForRawGVK gvk with
        | none => pathMap
        | some gvks => (gvks, pv.1) :: pathMap) []

/-- The key/value pair one component contributes to `componentMap`. -/
def compEntry (c : ComponentM) : Option (String × String) :=
  match c.ext with
  | none => none
  | some gvk =>
    match getKeyForRawGVK gvk with
    | none => none
    | some gvks => some (gvks, c.name)

/-- The key/value pair one path contributes to `pathMap`. -/
def pathEntry (pv : String × PathItemM) : Option (String × String) :=
  match chosenOp pv.2 with
  | none => none
  | some op =>
    match op.ext with
    | none => none
    | some gvk =>
      match getKeyForRawGVK gvk with
      | none => none
      | some gvks => some (gvks, pv.1)

theorem buildComponentMap_eq (doc : DocM) :
    buildComponentMap doc = doc.components.foldl (fun m c =>
      match compEntry c with
      | none => m
      | some kv => kv :: m) [] := by
  unfold buildComponentMap
  congr 1
  funext m c
  unfold compEntry
  cases c.ext with
  | none => rfl
  | some gvk =>
    dsimp only
    cases getKeyForRawGVK gvk <;> rfl

theorem buildPathMap_eq (doc : DocM) :
    buildPathMap doc = doc.paths.foldl (fun m pv =>
      match pathEntry pv with
      | none => m
      | some kv => kv :: m) [] := by
  unfold buildPathMap
  congr 1
  funext m pv
  unfold pathEntry
  cases chosenOp pv.2 with
  | none => rfl
  | some op =>
    dsimp only
    cases op.ext with
    | none => rfl
    | some gvk =>
      dsimp only
      cases getKeyForRawGVK gvk <;> rfl

/-- A key is present in a prepend-built map iff some list element
contributes it or it was already in the accumulator. -/
theorem lookup_isSome_foldl_entries {α : Type} (f : α → Option (String × String))
    (l : List α) (acc : List (String × String)) (k : String) :
    (List.lookup k (l.foldl (fun m i =>
        match f i with
        | none => m
        | some kv => kv :: m) acc)).isSome = true ↔
      (∃ i ∈ l, ∃ v, f i = some (k, v)) ∨ (List.lookup k acc).isSome = true := by
  induction l generalizing acc with
  | nil => simp
  | cons i rest ih =>
    rw [List.foldl_cons, ih]
    cases hf : f i with
    | none =>
      simp only [List.mem_cons]
      constructor
      · rintro (⟨j, hj, v, hv⟩ | hacc)
        · exact Or.inl ⟨j, Or.inr hj, v, hv⟩
        · exact Or.inr hacc
      · rintro (⟨j, hj | hj, v, hv⟩ | hacc)
        · rw [hj, hf] at hv; cases hv
        · exact Or.inl ⟨j, hj, v, hv⟩
        · exact Or.inr hacc
    | some kv =>
      obtain ⟨k2, v2⟩ := kv
      simp only [List.mem_cons, List.lookup_cons]
      by_cases hk : k = k2
      · subst hk
        simp only [beq_self_eq_true]
        constructor
        · intro _
          exact Or.inl ⟨i, Or.inl rfl, v2, hf⟩
        · intro _
          right
          simp
      · have : (k == k2) = false := beq_false_of_ne hk
        rw [this]
        constructor
        · rintro (⟨j, hj, v, hv⟩ | hacc)
          · exact Or.inl ⟨j, Or.inr hj, v, hv⟩
          · exact Or.inr hacc
        · rintro (⟨j, hj | hj, v, hv⟩ | hacc)
          · rw [hj, hf] at hv
            injection hv with hv2
            cases hv2
            exact absurd rfl hk
          · exact Or.inl ⟨j, hj, v, hv⟩
          · exact Or.inr hacc

/-! ## Claim C8: `pathByGVK` keys versus `componentByGVK` keys -/

/-- C8 counterexample: a loadable document can expose a POST path with a
`x-kubernetes-group-version-kind` extension for a GVK that no component
schema carries; nothing in `buildPathMap` / `buildComponentMap` enforces
the claimed inclusion. -/
theorem pathMap_key_without_component_counterexample :
    List.lookup "g/v1/k"
        (buildPathMap ⟨[],
          [("/apis/g/v1/ks",
            ⟨some ⟨some (GVKExt.one ⟨"g", "v1", "K"⟩)⟩, none⟩)]⟩) =
      some "/apis/g/v1/ks" ∧
    List.lookup "g/v1/k"
        (buildComponentMap ⟨[],
          [("/apis/g/v1/ks",
            ⟨some ⟨some (GVKExt.one ⟨"g", "v1", "K"⟩)⟩, none⟩)]⟩) = none :=
  ⟨rfl, rfl⟩

/-- C8 amended: the inclusion holds exactly for documents (such as the
official Kubernetes swagger) in which every GVK triple carried by the
POST-else-PUT operation of a path is also carried by some component
schema; under that hypothesis every key of `pathByGVK` is a key of
`componentByGVK`, because both maps key by the same
`getKeyForRawGVK` computation. -/
theorem pathMap_keys_in_componentMap (doc : DocM)
    (hcov : ∀ p item op ext g, (p, item) ∈ doc.paths → chosenOp item = some op →
       op.ext = some ext → parseGVK ext = some g →
       ∃ c ∈ doc.components, ∃ cext, c.ext = some cext ∧ parseGVK cext = some g)
    (k : String) (hk : (List.lookup k (buildPathMap doc)).isSome = true) :
    (List.lookup k (buildComponentMap doc)).isSome = true := by
  rw [buildPathMap_eq] at hk
  rw [lookup_isSome_foldl_entries] at hk
  rcases hk with ⟨⟨p, item⟩, hmem, v, hv⟩ | habs
  · unfold pathEntry at hv
    rcases hop : chosenOp item with _ | op
    · rw [hop] at hv; cases hv
    · rw [hop] at hv
      dsimp only at hv
      rcases hext : op.ext with _ | ext
      · rw [hext] at hv; cases hv
      · rw [hext] at hv
        dsimp only at hv
        rcases hkey : getKeyForRawGVK ext with _ | gvks
        · rw [hkey] at hv; cases hv
        · rw [hkey] at hv
          injection hv with hv
          obtain ⟨hk1, -⟩ := Prod.mk.injEq .. ▸ And.intro (congrArg Prod.fst hv) (congrArg Prod.snd hv)
          unfold getKeyForRawGVK at hkey
          rcases hg : parseGVK ext with _ | g
          · rw [hg] at hkey; cases hkey
          · rw [hg] at hkey
            injection hkey with hkey
            obtain ⟨c, hc, cext, hcext, hcparse⟩ := hcov p item op ext g hmem hop hext hg
            rw [buildComponentMap_eq, lookup_isSome_foldl_entries]
            left
            refine ⟨c, hc, c.name, ?_⟩
            unfold compEntry getKeyForRawGVK
            rw [hcext]
            dsimp only
            rw [hcparse]
            dsimp only
            rw [hkey]
  · simp at habs

/-- Witness for C8's amended theorem: a document whose single path GVK is
also carried by a component. -/
theorem pathMap_keys_in_componentMap_witness :
    (List.lookup "g/v1/k"
      (buildComponentMap ⟨[⟨"io.k8s.api.g.v1.K", some (GVKExt.one ⟨"g", "v1", "K"⟩)⟩],
        [("/apis/g/v1/ks", ⟨some ⟨some (GVKExt.one ⟨"g", "v1", "K"⟩)⟩, none⟩)]⟩)).isSome = true :=
  pathMap_keys_in_componentMap
    ⟨[⟨"io.k8s.api.g.v1.K", some (GVKExt.one ⟨"g", "v1", "K"⟩)⟩],
      [("/apis/g/v1/ks", ⟨some ⟨some (GVKExt.one ⟨"g", "v1", "K"⟩)⟩, none⟩)]⟩
    (by
      intro p item op ext g hmem hop hext hg
      simp only [List.mem_cons, List.not_mem_nil, or_false] at hmem
      injection hmem with hm1 hm2
      subst hm1
      subst hm2
      injection hop with hop
      subst hop
      injection hext with hext
      subst hext
      injection hg with hg
      subst hg
      exact ⟨⟨"io.k8s.api.g.v1.K", some (GVKExt.one ⟨"g", "v1", "K"⟩)⟩, by simp,
        GVKExt.one ⟨"g", "v1", "K"⟩, rfl, rfl⟩)
    "g/v1/k" rfl

/-! ## `kindInfoMap` construction (src/unnamed/part_001) -/

/-- `kubeSpec.buildGVKRestPathMap` (part_001:226): like `buildPathMap` but
keyed through `getKeyForGVK`. -/
def buildGVKRestPathMap (doc : DocM) : List (String × String) :=
  doc.paths.foldl (fun pathMap pv =>
    match chosenOp pv.2 with
    | none => pathMap
    | some op =>
      match op.ext with
      | none => pathMap
      | some gvk =>
        match getKeyForGVK gvk with
        | none => pathMap
        | some gvks => (gvks, pv.1) :: pathMap) []

/-- `kindMap[kind] = append(kindMap[kind], &ki)` on the association-list
model of the Go map: extend the bucket in place, or create it. -/
def bucketAppend : List (String × List KindInfo) → String → KindInfo →
    List (String × List KindInfo)
  | [], k, ki => [(k, [ki])]
  | (k2, l) :: rest, k, ki =>
    if k2 = k then (k2, l ++ [ki]) :: rest
    else (k2, l) :: bucketAppend rest k ki

/-- The accumulation loop of `kubeSpec.buildKindInfoMap` (part_001:248-278),
before the per-kind sort: for every component carrying a parseable
extension, append a `KindInfo` whose `RestPath` is filled from
`buildGVKRestPathMap` when present. -/
def buildKindInfoMapUnsorted (doc : DocM) : List (String × List KindInfo) :=
  let restPath := buildGVKRestPathMap doc
  doc.components.foldl (fun kindMap c =>
    match c.ext with
    | none => kindMap
    | some gvk =>
      match parseGVK gvk with
      | none => kindMap
      | some gvks =>
        let kind := goToLower gvks.kind
        let kindMap :=
          if (List.lookup kind kindMap).isNone then kindMap ++ [(kind, [])]
          else kindMap
        let ki : KindInfo :=
          { version := gvks.version, group := gvks.group, restPath := "",
            componentKey := c.name,
            isGA := getVersionType gvks.version == gaVersion }
        match getKeyForGVK gvk with
        | none => kindMap
        | some gvkKey =>
          let ki :=
            match List.lookup gvkKey restPath with
            | some p => { ki with restPath := p }
            | none => ki
          bucketAppend kindMap kind ki) []

/-- Modelled from the spec: the boolean version comparator that the
`sort.Slice` call in `buildKindInfoMap` (part_001:280-282) applies to the
two `Version` fields.  The bool-returning `compareVersion` overload it
names is declared outside src/; §4.1 fixes the comparison as the
`(major, versionType, minor)` tuple comparison, which is exactly
`isSmallerVersion` applied to the two version tokens.  A pair the regex or
`Atoi` cannot handle counts as "not smaller". -/
def compareVersionBool (lhs rhs : String) : Bool :=
  (isSmallerVersion lhs rhs).getD false

/-- Insertion step of the bucket sort. -/
def insertSorted (x : KindInfo) : List KindInfo → List KindInfo
  | [] => [x]
  | y :: ys =>
    if compareVersionBool x.version y.version then x :: y :: ys
    else y :: insertSorted x ys

/-- The `sort.Slice(gvs, ...)` call of `buildKindInfoMap` (part_001:280),
modelled as an insertion sort driven by the same comparator (Go's sort is
unstable and, for a comparator that is not a strict weak order, leaves the
permutation unspecified; any comparison sort is an equally faithful
model). -/
def sortKindInfos (l : List KindInfo) : List KindInfo :=
  l.foldr insertSorted []

/-- `kubeSpec.buildKindInfoMap` (part_001:248): accumulate, then sort every
bucket. -/
def buildKindInfoMap (doc : DocM) : List (String × List KindInfo) :=
  (buildKindInfoMapUnsorted doc).map (fun kv => (kv.1, sortKindInfos kv.2))

/-! ### The tuple view of the comparator -/

/-- The `(major, versionType, minor)` triple of a version token, when the
regex captures parse. -/
def tupleOf (v : String) : Option (Nat × Nat × Nat) :=
  match vMatch v with
  | none => none
  | some m =>
    match getMajorVersion m, getMinorVersion m with
    | some maj, some minr => some (maj, getVersionType v, minr)
    | _, _ => none

theorem isSmallerVersion_eq_tupleLE (a b : String) (ta tb : Nat × Nat × Nat)
    (ha : tupleOf a = some ta) (hb : tupleOf b = some tb) :
    isSmallerVersion a b = some (tupleLE ta tb) := by
  unfold tupleOf at ha hb
  rcases hma : vMatch a with _ | ma
  · rw [hma] at ha; cases ha
  rw [hma] at ha
  dsimp only at ha
  rcases hmaja : getMajorVersion ma with _ | maja
  · rw [hmaja] at ha; cases ha
  rw [hmaja] at ha
  rcases hmina : getMinorVersion ma with _ | mina
  · rw [hmina] at ha; cases ha
  rw [hmina] at ha
  dsimp only at ha
  rcases hmb : vMatch b with _ | mb
  · rw [hmb] at hb; cases hb
  rw [hmb] at hb
  dsimp only at hb
  rcases hmajb : getMajorVersion mb with _ | majb
  · rw [hmajb] at hb; cases hb
  rw [hmajb] at hb
  rcases hminb : getMinorVersion mb with _ | minb
  · rw [hminb] at hb; cases hb
  rw [hminb] at hb
  dsimp only at hb
  injection ha with ha
  injection hb with hb
  subst ha
  subst hb
  exact isSmallerVersion_spec a b ma mb maja majb mina minb hma hmb hmaja hmajb hmina hminb

theorem tupleLE_refl (t : Nat × Nat × Nat) : tupleLE t t = true := by
  simp [tupleLE]

theorem tupleLE_total (s t : Nat × Nat × Nat) :
    tupleLE s t = true ∨ tupleLE t s = true := by
  simp only [tupleLE, Bool.or_eq_true, Bool.and_eq_true, decide_eq_true_eq]
  omega

theorem tupleLE_trans (s t u : Nat × Nat × Nat)
    (h1 : tupleLE s t = true) (h2 : tupleLE t u = true) : tupleLE s u = true := by
  simp only [tupleLE, Bool.or_eq_true, Bool.and_eq_true, decide_eq_true_eq] at h1 h2 ⊢
  omega

theorem compareVersionBool_eq_tupleLE (a b : String) (ta tb : Nat × Nat × Nat)
    (ha : tupleOf a = some ta) (hb : tupleOf b = some tb) :
    compareVersionBool a b = tupleLE ta tb := by
  unfold compareVersionBool
  rw [isSmallerVersion_eq_tupleLE a b ta tb ha hb]
  rfl

/-! ### Sortedness of the bucket sort -/

/-- The order relation the bucket sort establishes. -/
def KiLE (a b : KindInfo) : Prop := compareVersionBool a.version b.version = true

/-- The parseability side condition under which the comparator is a total
preorder. -/
def KiParses (a : KindInfo) : Prop := (tupleOf a.version).isSome = true

theorem kiLE_total (a b : KindInfo) (ha : KiParses a) (hb : KiParses b) :
    KiLE a b ∨ KiLE b a := by
  obtain ⟨ta, hta⟩ := Option.isSome_iff_exists.mp ha
  obtain ⟨tb, htb⟩ := Option.isSome_iff_exists.mp hb
  unfold KiLE
  rw [compareVersionBool_eq_tupleLE _ _ ta tb hta htb,
    compareVersionBool_eq_tupleLE _ _ tb ta htb hta]
  exact tupleLE_total ta tb

theorem kiLE_refl (a : KindInfo) (ha : KiParses a) : KiLE a a := by
  obtain ⟨ta, hta⟩ := Option.isSome_iff_exists.mp ha
  unfold KiLE
  rw [compareVersionBool_eq_tupleLE _ _ ta ta hta hta]
  exact tupleLE_refl ta

theorem kiLE_trans (a b c : KindInfo) (ha : KiParses a) (hb : KiParses b)
    (hc : KiParses c) (h1 : KiLE a b) (h2 : KiLE b c) : KiLE a c := by
  obtain ⟨ta, hta⟩ := Option.isSome_iff_exists.mp ha
  obtain ⟨tb, htb⟩ := Option.isSome_iff_exists.mp hb
  obtain ⟨tc, htc⟩ := Option.isSome_iff_exists.mp hc
  unfold KiLE at h1 h2 ⊢
  rw [compareVersionBool_eq_tupleLE _ _ ta tb hta htb] at h1
  rw [compareVersionBool_eq_tupleLE _ _ tb tc htb htc] at h2
  rw [compareVersionBool_eq_tupleLE _ _ ta tc hta htc]
  exact tupleLE_trans ta tb tc h1 h2

theorem mem_insertSorted (x y : KindInfo) (l : List KindInfo) :
    y ∈ insertSorted x l ↔ y = x ∨ y ∈ l := by
  induction l with
  | nil => simp [insertSorted]
  | cons z zs ih =>
    unfold insertSorted
    split
    · simp
    · simp only [List.mem_cons, ih]
      tauto

theorem mem_sortKindInfos (y : KindInfo) (l : List KindInfo) :
    y ∈ sortKindInfos l ↔ y ∈ l := by
  induction l with
  | nil => simp [sortKindInfos]
  | cons x xs ih =>
    show y ∈ insertSorted x (sortKindInfos xs) ↔ _
    rw [mem_insertSorted, ih]
    simp

theorem chain_insertSorted (x : KindInfo) (l : List KindInfo)
    (hx : KiParses x) (hl : ∀ y ∈ l, KiParses y)
    (hc : List.Chain' KiLE l) : List.Chain' KiLE (insertSorted x l) := by
  induction l with
  | nil => simp [insertSorted]
  | cons y ys ih =>
    unfold insertSorted
    split
    · rename_i hxy
      exact List.Chain'.cons hxy hc
    · rename_i hxy
      have hyx : KiLE y x := by
        rcases kiLE_total x y hx (hl y (by simp)) with h | h
        · exact absurd h hxy
        · exact h
      have hys : ∀ z ∈ ys, KiParses z := fun z hz => hl z (by simp [hz])
      have hcys : List.Chain' KiLE ys := hc.tail
      have hins := ih hys hcys
      rw [List.chain'_cons']
      refine ⟨?_, hins⟩
      intro h hh
      cases ys with
      | nil =>
        simp [insertSorted] at hh
        subst hh
        exact hyx
      | cons z zs =>
        unfold insertSorted at hh
        split at hh
        · simp at hh
          subst hh
          exact hyx
        · simp at hh
          subst hh
          exact (List.chain'_cons.mp hc).1

theorem chain_sortKindInfos (l : List KindInfo) (hl : ∀ y ∈ l, KiParses y) :
    List.Chain' KiLE (sortKindInfos l) := by
  induction l with
  | nil => simp [sortKindInfos]
  | cons x xs ih =>
    show List.Chain' KiLE (insertSorted x (sortKindInfos xs))
    refine chain_insertSorted x (sortKindInfos xs) (hl x (by simp)) ?_ ?_
    · intro y hy
      exact hl y (by simp [(mem_sortKindInfos y xs).mp hy])
    · exact ih (fun y hy => hl y (by simp [hy]))

theorem chain_last_ge (l : List KindInfo) :
    (∀ y ∈ l, KiParses y) → List.Chain' KiLE l →
    ∀ x ∈ l, ∃ last, l.getLast? = some last ∧ KiLE x last := by
  induction l with
  | nil =>
    intro _ _ x hx
    exact absurd hx (List.not_mem_nil x)
  | cons a t ih =>
    intro hP hc x hx
    cases t with
    | nil =>
      simp only [List.mem_cons, List.not_mem_nil, or_false] at hx
      subst hx
      exact ⟨x, rfl, kiLE_refl x (hP x (by simp))⟩
    | cons b rest =>
      have hPt : ∀ y ∈ b :: rest, KiParses y := fun y hy => hP y (by simp [hy])
      have hab : KiLE a b := (List.chain'_cons.mp hc).1
      have hct : List.Chain' KiLE (b :: rest) := (List.chain'_cons.mp hc).2
      rcases List.mem_cons.mp hx with hxa | hxt
      · subst hxa
        obtain ⟨last, hlastEq, hbl⟩ := ih hPt hct b (by simp)
        have hlastMem : last ∈ b :: rest := List.mem_of_mem_getLast? hlastEq
        refine ⟨last, ?_, ?_⟩
        · rw [List.getLast?_cons_cons, hlastEq]
        · exact kiLE_trans x b last (hP x hx) (hPt b (by simp)) (hPt last hlastMem)
            hab hbl
      · obtain ⟨last, hlastEq, hxl⟩ := ih hPt hct x hxt
        exact ⟨last, by rw [List.getLast?_cons_cons, hlastEq], hxl⟩

theorem lookup_map_sort (l : List (String × List KindInfo)) (k : String) :
    List.lookup k (l.map (fun kv => (kv.1, sortKindInfos kv.2))) =
      (List.lookup k l).map sortKindInfos := by
  induction l with
  | nil => simp
  | cons kv rest ih =>
    obtain ⟨k2, bucket⟩ := kv
    simp only [List.map_cons, List.lookup_cons]
    by_cases hk : (k == k2) = true
    · rw [hk]
      rfl
    · rw [Bool.not_eq_true] at hk
      rw [hk, ih]

/-! ## Claim C2: the last bucket element under the §4.1 comparator -/

/-- C2 counterexample: a document with an `extensions/v2` and an `apps/v1`
schema for the same Kind.  The bucket sort compares only the version
tokens, so the `extensions/v2` entry sorts LAST (`v1 < v2`), yet under the
full §4.1 comparator `compareVersion` its component key LOSES to the
`apps/v1` key (extensions always lose): the last element does not compare
greater-or-equal to every other element. -/
theorem kindIndex_last_not_ge_counterexample :
    List.lookup "k" (buildKindInfoMap
      ⟨[⟨"io.k8s.api.apps.v1.K", some (GVKExt.one ⟨"apps", "v1", "K"⟩)⟩,
        ⟨"io.k8s.api.extensions.v2.K", some (GVKExt.one ⟨"extensions", "v2", "K"⟩)⟩],
       []⟩) =
      some [⟨"v1", "apps", "", "io.k8s.api.apps.v1.K", true⟩,
            ⟨"v2", "extensions", "", "io.k8s.api.extensions.v2.K", true⟩] ∧
    compareVersion "io.k8s.api.extensions.v2.K" "io.k8s.api.apps.v1.K" =
      some "io.k8s.api.apps.v1.K" :=
  ⟨rfl, rfl⟩

/-- C2 amended: the guarantee the sort actually establishes concerns the
version tokens only, not the `extensions` rule of §4.1, and ties are
unordered: for every bucket of `kindInfoMap` whose version tokens all
parse, the last element's `(major, versionType, minor)` tuple is
greater-or-equal to every other element's — `isSmallerVersion` answers
`true` from every element to the last. -/
theorem kindInfoMap_bucket_last_maximal (doc : DocM) (k : String)
    (bucket : List KindInfo)
    (hb : List.lookup k (buildKindInfoMap doc) = some bucket)
    (hP : ∀ ki ∈ bucket, (tupleOf ki.version).isSome = true)
    (ki : KindInfo) (hki : ki ∈ bucket) :
    ∃ last, bucket.getLast? = some last ∧
      isSmallerVersion ki.version last.version = some true := by
  rw [buildKindInfoMap, lookup_map_sort] at hb
  rcases hpre : List.lookup k (buildKindInfoMapUnsorted doc) with _ | pre
  · rw [hpre] at hb; cases hb
  · rw [hpre] at hb
    injection hb with hb
    subst hb
    have hchain := chain_sortKindInfos pre (fun y hy =>
      hP y ((mem_sortKindInfos y pre).mpr hy))
    obtain ⟨last, hlast, hR⟩ := chain_last_ge (sortKindInfos pre) hP hchain ki hki
    have hPki := hP ki hki
    have hPlast := hP last (List.mem_of_mem_getLast? hlast)
    obtain ⟨ta, hta⟩ := Option.isSome_iff_exists.mp hPki
    obtain ⟨tb, htb⟩ := Option.isSome_iff_exists.mp hPlast
    refine ⟨last, hlast, ?_⟩
    rw [isSmallerVersion_eq_tupleLE ki.version last.version ta tb hta htb]
    unfold KiLE at hR
    rw [compareVersionBool_eq_tupleLE ki.version last.version ta tb hta htb] at hR
    rw [hR]

/-- Witness for C2's amended theorem at the two-schema document of the
counterexample: every bucket element is tuple-below the last element. -/
theorem kindInfoMap_bucket_last_maximal_witness :
    ∃ last, List.getLast?
        ((List.lookup "k" (buildKindInfoMap
          ⟨[⟨"io.k8s.api.apps.v1.K", some (GVKExt.one ⟨"apps", "v1", "K"⟩)⟩,
            ⟨"io.k8s.api.extensions.v2.K",
              some (GVKExt.one ⟨"extensions", "v2", "K"⟩)⟩], []⟩)).getD []) =
        some last ∧
      isSmallerVersion "v1" last.version = some true := by
  obtain ⟨last, hl, hs⟩ := kindInfoMap_bucket_last_maximal
    ⟨[⟨"io.k8s.api.apps.v1.K", some (GVKExt.one ⟨"apps", "v1", "K"⟩)⟩,
      ⟨"io.k8s.api.extensions.v2.K", some (GVKExt.one ⟨"extensions", "v2", "K"⟩)⟩],
     []⟩ "k"
    [⟨"v1", "apps", "", "io.k8s.api.apps.v1.K", true⟩,
     ⟨"v2", "extensions", "", "io.k8s.api.extensions.v2.K", true⟩]
    rfl
    (by
      intro ki hki
      simp only [List.mem_cons, List.not_mem_nil, or_false] at hki
      rcases hki with h | h <;> (subst h; decide))
    ⟨"v1", "apps", "", "io.k8s.api.apps.v1.K", true⟩ (by simp)
  exact ⟨last, hl, hs⟩

end DepCheck
